import Mathlib

/-!
Verification of the aocprep tool (`src/main.rs`) against its specification.

The development embeds the program shallowly:

* The DOM produced by the HTML parser is modelled by the nested inductive
  type `Node` (elements, text nodes, comments) and `Html` (a list of root
  nodes).  `Html.parse_document` is a total HTML parser modelled from the
  spec (the real one is the external `html5ever`/`scraper` crate, which the
  spec treats as an external collaborator that "must tolerate
  malformed/partial HTML gracefully rather than failing").
* `Selector.parse` models CSS selector parsing for chains of tag names
  joined by the child combinator `>` (again an external crate, modelled
  from the spec), and `Html.select` models `scraper`'s document-order
  selection of matching elements.
* `parse_tests` is the direct translation of `fn parse_tests` from
  `src/main.rs`: parse the document, select with the fixed selector
  string, and join the descendant text of each match with the empty
  separator.
* `day_number` models `RunContext::day_number`, including the byte-slice
  `day_name[3..]` (which can panic on short strings or non-boundary
  indices) and Rust's `usize::from_str` semantics (an optional leading
  '+' is stripped; a leading '-' is never stripped for an unsigned type
  and so always fails in the digit loop; decimal digits with overflow
  checking at `usize::MAX`).
* `get_inputs` models `fn get_inputs` over an explicit association-list
  filesystem and a network oracle; the result records the outcome, the
  new filesystem and the number of network requests performed.
-/

namespace Aocprep

/-- A node of the parsed DOM tree: an element with a tag name and child
nodes, a text node, or a comment node. -/
inductive Node where
  | element (tag : String) (children : List Node)
  | text (s : String)
  | comment (s : String)

/-- A parsed HTML document: the list of top-level nodes in document order.
Top-level nodes have no parent element. -/
structure Html where
  roots : List Node

mutual

/-- Model of `scraper`'s `ElementRef::text`: the list of the strings of all
descendant text nodes of a node, in document order. -/
def Node.textNodes : Node → List String
  | Node.element _ children => textNodesList children
  | Node.text s => [s]
  | Node.comment _ => []

/-- Descendant text node strings of a list of sibling nodes, in document
order. -/
def textNodesList : List Node → List String
  | [] => []
  | n :: ns => Node.textNodes n ++ textNodesList ns

end

mutual

/-- Spec-side notion of text content: the flush concatenation of the text
of all descendant text nodes in document order, with no separator. -/
def Node.specTextConcat : Node → String
  | Node.element _ children => specTextConcatList children
  | Node.text s => s
  | Node.comment _ => ""

/-- Flush concatenation of the text content of a list of sibling nodes. -/
def specTextConcatList : List Node → String
  | [] => ""
  | n :: ns => Node.specTextConcat n ++ specTextConcatList ns

end

mutual

/-- All elements of the subtree rooted at a node, in document (preorder)
order, each paired with the list of its ancestor element tags, nearest
ancestor first. -/
def Node.elementsWithAnc : List String → Node → List (Node × List String)
  | anc, Node.element tag children =>
      (Node.element tag children, anc) :: elementsWithAncList (tag :: anc) children
  | _, Node.text _ => []
  | _, Node.comment _ => []

/-- Elements of a list of sibling subtrees in document order, with
ancestor tag lists. -/
def elementsWithAncList : List String → List Node → List (Node × List String)
  | _, [] => []
  | anc, n :: ns => Node.elementsWithAnc anc n ++ elementsWithAncList anc ns

end

mutual

/-- Spec-side notion of the qualifying example blocks of a subtree: the
elements of tag type "code" whose immediate parent is an element of tag
type "pre", in document order.  The argument is the tag of the immediate
parent element of the listed nodes (`none` at the document root). -/
def Node.qualifyingBlocks : Node → List Node
  | Node.element tag children => qualifyingBlocksList (some tag) children
  | Node.text _ => []
  | Node.comment _ => []

/-- Qualifying blocks among a list of sibling nodes and their subtrees,
given the tag of the immediate parent element (if any). -/
def qualifyingBlocksList : Option String → List Node → List Node
  | _, [] => []
  | ptag, c :: cs =>
      (match c with
       | Node.element ctag k =>
           if ctag = ("code") ∧ ptag = some ("pre") then [Node.element ctag k] else []
       | Node.text _ => []
       | Node.comment _ => []) ++ Node.qualifyingBlocks c ++ qualifyingBlocksList ptag cs

end

mutual

/-- Count of qualifying code blocks of a subtree. -/
def Node.countQualifying : Node → Nat
  | Node.element tag children => countQualifyingList (some tag) children
  | Node.text _ => 0
  | Node.comment _ => 0

/-- Count of qualifying code blocks among sibling subtrees, given the tag
of the immediate parent element (if any). -/
def countQualifyingList : Option String → List Node → Nat
  | _, [] => 0
  | ptag, c :: cs =>
      (match c with
       | Node.element ctag _ =>
           if ctag = ("code") ∧ ptag = some ("pre") then 1 else 0
       | Node.text _ => 0
       | Node.comment _ => 0) + Node.countQualifying c + countQualifyingList ptag cs

end

mutual

/-- All elements of a subtree in document (preorder) order. -/
def Node.allElements : Node → List Node
  | Node.element tag children => Node.element tag children :: allElementsList children
  | Node.text _ => []
  | Node.comment _ => []

/-- All elements of a list of sibling subtrees in document order. -/
def allElementsList : List Node → List Node
  | [] => []
  | n :: ns => Node.allElements n ++ allElementsList ns

end

/-- The qualifying example blocks of a whole document: root nodes have no
parent element, so a root can never qualify itself. -/
def Html.qualifying (d : Html) : List Node :=
  qualifyingBlocksList none d.roots

/-- Count of qualifying code blocks of a whole document. -/
def Html.countQualifying (d : Html) : Nat :=
  countQualifyingList none d.roots

/-- All elements of a whole document in document order. -/
def Html.allElements (d : Html) : List Node :=
  allElementsList d.roots

/-- A parsed CSS selector: a chain of tag names joined by the child
combinator, outermost first.  The selector string "pre&gt;code" parses to
the chain ["pre", "code"]. -/
structure Selector where
  path : List String
deriving DecidableEq

/-- Characters allowed in a tag name of a selector. -/
def isSelectorIdentChar (c : Char) : Bool :=
  c.isAlpha || c.isDigit || c == ('-')

/-- Split a character list at every occurrence of a separator. -/
def splitOnChar (sep : Char) : List Char → List (List Char)
  | [] => [[]]
  | c :: r =>
      let ps := splitOnChar sep r
      if c == sep then [] :: ps
      else
        match ps with
        | [] => [[c]]
        | p :: rest => (c :: p) :: rest

/-- Modelled from the spec: `scraper`'s `Selector::parse` (external
`selectors` crate) restricted to the grammar the program uses, namely
nonempty tag names joined by the child combinator.  Returns `none` on an
invalid pattern, in which case the program's `unwrap` would panic. -/
def Selector.parse (s : String) : Option Selector :=
  let parts := splitOnChar ('>') s.data
  if parts.all (fun p => !p.isEmpty && p.all isSelectorIdentChar) then
    some ⟨parts.map (fun cs => String.mk cs)⟩
  else none

/-- Does the chain of tag names match consecutive nearest ancestors? -/
def ancestorChainMatches : List String → List String → Bool
  | [], _ => true
  | _ :: _, [] => false
  | t :: ts, a :: rest => t == a && ancestorChainMatches ts rest

/-- Does an element (paired with its ancestor tag list) match a selector?
The last tag of the chain must equal the element's own tag and the
preceding tags must match the consecutive nearest ancestors. -/
def Selector.matchesNode (sel : Selector) (p : Node × List String) : Bool :=
  match p.1 with
  | Node.element tag _ =>
      (match sel.path.reverse with
       | [] => false
       | subj :: above => subj == tag && ancestorChainMatches above p.2)
  | Node.text _ => false
  | Node.comment _ => false

/-- Model of `scraper`'s `Html::select`: the elements of the document that
match the selector, in document order. -/
def Html.select (d : Html) (sel : Selector) : List Node :=
  ((elementsWithAncList [] d.roots).filter (fun p => sel.matchesNode p)).map
    (fun p => p.1)

/-! HTML parsing, modelled from the spec.  The real program parses with the
external `html5ever` crate via `scraper::Html::parse_document`, which is
total: it never fails, and it tolerates malformed or partial markup.  The
model below is a total tag-soup parser: it recognises tag open/close
syntax, self-closing and void elements, comments and doctype
declarations, treats everything else as text, auto-closes unclosed
elements at the end of input, and ignores close tags that match no open
element.  It does not model attribute values containing the '>' sign,
entity decoding, or html5ever's implied html/head/body synthesis; none of
those affect the properties proved here. -/

/-- Is the character usable in a tag name? -/
def isTagNameChar (c : Char) : Bool :=
  c.isAlpha || c.isDigit

/-- Void elements of HTML: they never have contents or a close tag. -/
def voidElements : List String :=
  [("area"), ("base"), ("br"), ("col"), ("embed"), ("hr"), ("img"),
   ("input"), ("link"), ("meta"), ("param"), ("source"), ("track"), ("wbr")]

/-- Drop input through the first '>' character (used for doctype and
malformed declarations). -/
def dropUntilGt : List Char → List Char
  | [] => []
  | c :: r => if c == ('>') then r else dropUntilGt r

/-- Split the input at the first comment terminator "--&gt;", returning the
comment body and the rest of the input. -/
def splitAtCommentEnd : List Char → List Char × List Char
  | [] => ([], [])
  | '-' :: '-' :: '>' :: r => ([], r)
  | c :: r =>
      let p := splitAtCommentEnd r
      (c :: p.1, p.2)

/-- The stack of currently open elements, innermost first; each frame
holds the tag name and the children accumulated so far in reverse
order. -/
abbrev OpenElems := List (String × List Node)

/-- Attach a finished node to the innermost open element, or to the root
list (kept in reverse order) when no element is open. -/
def addNode (n : Node) : OpenElems → List Node → OpenElems × List Node
  | (t, ks) :: rest, roots => ((t, n :: ks) :: rest, roots)
  | [], roots => ([], n :: roots)

/-- Cascade a finished node upwards: attach it to the next open element,
close that element in turn, and repeat until an element with the given
tag has been closed or the stack is exhausted. -/
def closeCascade (tag : String) (n : Node) : OpenElems → List Node → OpenElems × List Node
  | [], roots => ([], n :: roots)
  | (t, ks) :: rest, roots =>
      let node := Node.element t (n :: ks).reverse
      if t == tag then addNode node rest roots
      else closeCascade tag node rest roots

/-- Close open elements, innermost first, until an element with the given
tag has been closed.  Callers check beforehand that the tag is open. -/
def closeUpToAux (tag : String) (stack : OpenElems) (roots : List Node) :
    OpenElems × List Node :=
  match stack with
  | [] => ([], roots)
  | (t, ks) :: rest =>
      let node := Node.element t ks.reverse
      if t == tag then addNode node rest roots
      else closeCascade tag node rest roots

/-- Handle a close tag: if the tag is open somewhere on the stack, close
elements up to and including it; otherwise ignore the close tag. -/
def closeUpTo (tag : String) (stack : OpenElems) (roots : List Node) :
    OpenElems × List Node :=
  if stack.any (fun f => f.1 == tag) then closeUpToAux tag stack roots
  else (stack, roots)

/-- Cascade a finished node upwards through every remaining open element
at the end of input. -/
def closeAllAux (n : Node) : OpenElems → List Node → List Node
  | [], roots => n :: roots
  | (t, ks) :: rest, roots => closeAllAux (Node.element t (n :: ks).reverse) rest roots

/-- Close every remaining open element at the end of input and return the
root list (still in reverse order). -/
def closeAll (stack : OpenElems) (roots : List Node) : List Node :=
  match stack with
  | [] => roots
  | (t, ks) :: rest => closeAllAux (Node.element t ks.reverse) rest roots

/-- One pass of the tag-soup parser over the remaining input.  The fuel
argument only serves termination; it is initialised to more than the
input length and every step consumes at least one input character. -/
def parseLoop : Nat → List Char → OpenElems → List Node → List Node
  | 0, _, stack, roots => closeAll stack roots
  | _ + 1, [], stack, roots => closeAll stack roots
  | fuel + 1, '<' :: rest, stack, roots =>
      (match rest with
       | '!' :: '-' :: '-' :: r =>
           let p := splitAtCommentEnd r
           let sr := addNode (Node.comment (String.mk p.1)) stack roots
           parseLoop fuel p.2 sr.1 sr.2
       | '!' :: r => parseLoop fuel (dropUntilGt r) stack roots
       | '/' :: r =>
           let p := r.span isTagNameChar
           let tag := String.mk (p.1.map Char.toLower)
           let sr := closeUpTo tag stack roots
           parseLoop fuel (dropUntilGt p.2) sr.1 sr.2
       | c :: r =>
           if c.isAlpha then
             let p := (c :: r).span isTagNameChar
             let tag := String.mk (p.1.map Char.toLower)
             let q := p.2.span (fun ch => ch != ('>'))
             let rest2 := match q.2 with
                          | '>' :: rr => rr
                          | other => other
             if q.1.getLast? == some ('/') || voidElements.contains tag then
               let sr := addNode (Node.element tag []) stack roots
               parseLoop fuel rest2 sr.1 sr.2
             else
               parseLoop fuel rest2 ((tag, []) :: stack) roots
           else
             let sr := addNode (Node.text ("<")) stack roots
             parseLoop fuel rest sr.1 sr.2
       | [] =>
           let sr := addNode (Node.text ("<")) stack roots
           closeAll sr.1 sr.2)
  | fuel + 1, cs, stack, roots =>
      let p := cs.span (fun ch => ch != ('<'))
      let sr := addNode (Node.text (String.mk p.1)) stack roots
      parseLoop fuel p.2 sr.1 sr.2

/-- Modelled from the spec: `scraper::Html::parse_document` (external
`html5ever` crate).  Total on every input string; malformed markup never
fails. -/
def Html.parse_document (input : String) : Html :=
  ⟨(parseLoop (input.length + 1) input.data [] []).reverse⟩

/-- Direct translation of `fn parse_tests` from `src/main.rs`: parse the
document, select with the fixed selector pattern "pre&gt;code" (whose
successful construction discharges the `unwrap`), and return the text of
each matched element, joined with the empty separator. -/
def parse_tests (html : String) : Except String (List String) :=
  let document := Html.parse_document html
  let selector := (Selector.parse ("pre>code")).get (by decide)
  let tests := (document.select selector).map (fun el => String.join (Node.textNodes el))
  Except.ok tests

/-- The parsed form of the program's fixed selector pattern. -/
def preCodeSelector : Selector :=
  ⟨[("pre"), ("code")]⟩

/-- The HTML document of the program's own regression test
`test_parse_tests`, verbatim: an ordinary page with one
pre-nested code block and two inline code elements outside any pre. -/
def test_html : String :=
  "<!DOCTYPE html>\n    <html lang=\"en-us\">\n    <head>\n    <meta charset=\"utf-8\"/>\n    <title>Day 7 - Advent of Code 2021</title>\n    <link rel=\"shortcut icon\" href=\"/favicon.png\"/>\n    </head><!--\n    Oh, hello!  Funny seeing you here.\n    -->\n    <body>\n    <p>For example, consider the following horizontal positions:</p>\n    <pre><code>16,1,2,0,4,2,7,1,2,14</code></pre>\n    <p>This means there's a crab with horizontal position <code>16</code>, a crab with horizontal position <code>1</code>, and so on.</p>\n    </body>\n    </html>\n    "

/-! Model of `RunContext::day_number`.  The Rust code slices the day name
at byte index 3 (`day_name[3..]`), which panics when the index is out of
bounds or not a UTF-8 character boundary, and then parses the remaining
bytes with `str::parse::<usize>`.  Strings are modelled by their UTF-8
byte sequences. -/

/-- The largest value of `usize` on the 64-bit targets the tool runs on. -/
def USIZE_MAX : Nat := 2 ^ 64 - 1

/-- Is the byte the ASCII code of a decimal digit? -/
def isDigitByte (b : Nat) : Bool :=
  decide (0x30 ≤ b ∧ b ≤ 0x39)

/-- The accumulating digit loop of Rust's `usize::from_str` for a
non-negative number: multiply by ten and add each digit, failing on a
non-digit byte or on overflow past `USIZE_MAX`. -/
def parseDigits : List Nat → Nat → Option Nat
  | [], acc => some acc
  | b :: r, acc =>
      if isDigitByte b then
        let acc2 := acc * 10 + (b - 0x30)
        if acc2 ≤ USIZE_MAX then parseDigits r acc2 else none
      else none

/-- Model of Rust's `str::parse::<usize>` on UTF-8 bytes.  A leading '+'
(byte 0x2B) is stripped when followed by at least one character; a
leading '-' is only stripped for signed integer types, so for `usize` it
reaches the digit loop and fails as an invalid digit; the remaining
bytes must be one or more decimal digits, with overflow checking against
`USIZE_MAX`. -/
def parseUsize (s : List Nat) : Option Nat :=
  match s with
  | [] => none
  | b :: r =>
      if b = 0x2B then
        match r with
        | [] => none
        | _ :: _ => parseDigits r 0
      else parseDigits s 0

/-- Model of `str::is_char_boundary` on UTF-8 bytes: position zero, the
end of the string, or any position holding a byte that is not a UTF-8
continuation byte (0x80 to 0xBF). -/
def isCharBoundary (s : List Nat) (i : Nat) : Bool :=
  if i = 0 then true
  else if h : i < s.length then
    decide (s.get ⟨i, h⟩ < 0x80) || decide (0xC0 ≤ s.get ⟨i, h⟩)
  else decide (i = s.length)

/-- The outcome of `RunContext::day_number`: a panic from the byte
slice, a parse error, or the parsed day number. -/
inductive DayNumResult where
  | panicked
  | err (msg : String)
  | ok (n : Nat)
deriving DecidableEq

/-- Translation of `RunContext::day_number` on the UTF-8 bytes of the day
name: slice off the first three bytes (panicking when byte index 3 is not
a character boundary, which includes every name shorter than three
bytes), then parse the remainder as a usize. -/
def day_number (day_name : List Nat) : DayNumResult :=
  if isCharBoundary day_name 3 then
    match parseUsize (day_name.drop 3) with
    | some n => DayNumResult.ok n
    | none => DayNumResult.err ("Unable to parse day number")
  else DayNumResult.panicked

/-- Spec-side notion of a plain decimal numeral for a non-negative
integer: one or more decimal digit bytes. -/
def isDecimalNumeral (s : List Nat) : Bool :=
  decide (s ≠ []) && s.all isDigitByte

/-- Decimal value of a digit-byte string accumulated onto an initial
value. -/
def digitsValueFrom (acc : Nat) (s : List Nat) : Nat :=
  s.foldl (fun a b => a * 10 + (b - 0x30)) acc

/-- Decimal value of a digit-byte string. -/
def digitsValue (s : List Nat) : Nat :=
  digitsValueFrom 0 s

/-- The strings accepted by Rust's `usize::from_str`: a plain decimal
numeral whose value fits in usize, or a '+'-prefixed such numeral.  A
'-'-prefixed string is never accepted for an unsigned type. -/
def rustUsizeAccepts (s : List Nat) : Prop :=
  (isDecimalNumeral s = true ∧ digitsValue s ≤ USIZE_MAX) ∨
  (∃ r, s = 0x2B :: r ∧ isDecimalNumeral r = true ∧ digitsValue r ≤ USIZE_MAX)

/-- The UTF-8 bytes of the day name "day18446744073709551616": after the
three-byte prefix the remainder is the decimal numeral for 2 ^ 64, one
more than `USIZE_MAX`, so it is a valid non-negative integer that
`usize` parsing nevertheless rejects. -/
def overflowDayName : List Nat :=
  [0x64, 0x61, 0x79,
   0x31, 0x38, 0x34, 0x34, 0x36, 0x37, 0x34, 0x34, 0x30, 0x37,
   0x33, 0x37, 0x30, 0x39, 0x35, 0x35, 0x31, 0x36, 0x31, 0x36]

/-! Model of the run orchestration state used by `get_inputs`: an
association-list filesystem and a network oracle. -/

/-- The run identity: a day-folder name and the base project directory
(`struct RunContext`). -/
structure RunContext where
  day_name : String
  base_folder : String

/-- The UTF-8 bytes of a string, as natural numbers. -/
def stringBytes (s : String) : List Nat :=
  s.toUTF8.toList.map (fun b => b.toNat)

/-- The method `RunContext::day_number` applied to the context's day
name. -/
def RunContext.dayNumber (run : RunContext) : DayNumResult :=
  day_number (stringBytes run.day_name)

/-- Translation of `RunContext::day_folder`: the day folder inside the
base folder. -/
def RunContext.day_folder (run : RunContext) : String :=
  run.base_folder ++ ("/") ++ run.day_name

/-- The configuration record of `aoc.toml` (`struct Config`): a year and
a session credential. -/
structure Config where
  year : String
  session : String

/-- A filesystem modelled as an association list from paths to file
contents; earlier entries shadow later ones. -/
abbrev FileSystem := List (String × String)

/-- Does a file exist at the path? -/
def fsExists (fs : FileSystem) (p : String) : Bool :=
  fs.any (fun e => e.1 == p)

/-- Contents of the file at the path, if present. -/
def fsRead (fs : FileSystem) (p : String) : Option String :=
  (fs.find? (fun e => e.1 == p)).map (fun e => e.2)

/-- Write a file, shadowing any previous contents at the path. -/
def fsWrite (fs : FileSystem) (p : String) (c : String) : FileSystem :=
  (p, c) :: fs.filter (fun e => !(e.1 == p))

/-- Drop spaces from both ends of a character list. -/
def trimSpaces (cs : List Char) : List Char :=
  ((cs.dropWhile (fun c => c == (' '))).reverse.dropWhile (fun c => c == (' '))).reverse

/-- Modelled from the spec: one line of the structured key-value
configuration document, in the form key = "value". -/
def parseConfigLine (line : List Char) : Option (String × String) :=
  match splitOnChar ('=') line with
  | [k, v] =>
      (match trimSpaces v with
       | '"' :: rest =>
           if rest ≠ [] ∧ rest.getLast? = some ('"') then
             some (String.mk (trimSpaces k), String.mk rest.dropLast)
           else none
       | _ => none)
  | _ => none

/-- Modelled from the spec: the TOML parser of the external `toml` crate,
restricted to the two required string fields; a document missing either
field is a configuration error. -/
def parseConfig (s : String) : Except String Config :=
  let entries := (splitOnChar ('\n') s.data).filterMap parseConfigLine
  match entries.find? (fun e => e.1 == ("year")),
        entries.find? (fun e => e.1 == ("session")) with
  | some y, some sess => Except.ok ⟨y.2, sess.2⟩
  | _, _ => Except.error ("Parsing config file")

/-- Translation of `RunContext::aoc_config`: read `aoc.toml` in the base
folder and parse it; a missing file is a contextual read error. -/
def RunContext.aoc_config (run : RunContext) (fs : FileSystem) : Except String Config :=
  match fsRead fs (run.base_folder ++ ("/aoc.toml")) with
  | none => Except.error ("Error reading config file")
  | some s => parseConfig s

/-- The network, modelled as an oracle from the request parameters of
`retrieve_aoc` (configuration, day number, URL tail) to a response body
or a fetch error. -/
def Network : Type :=
  Config → Nat → String → Except String String

/-- Translation of `fn retrieve_aoc`: one blocking GET request answered
by the oracle. -/
def retrieve_aoc (net : Network) (config : Config) (dayNum : Nat) (tail : String) :
    Except String String :=
  net config dayNum tail

/-- Translation of `fn get_inputs` over explicit state.  The result is
`none` when `day_number` panics; otherwise it carries the returned
value, the resulting filesystem, and the number of network requests
performed. -/
def get_inputs (run : RunContext) (net : Network) (fs : FileSystem) :
    Option (Except String Unit × FileSystem × Nat) :=
  let input_file := run.day_folder ++ ("/input.txt")
  if fsExists fs input_file then
    some (Except.ok (), fs, 0)
  else
    match run.aoc_config fs with
    | Except.error e => some (Except.error e, fs, 0)
    | Except.ok config =>
        match run.dayNumber with
        | DayNumResult.panicked => none
        | DayNumResult.err e => some (Except.error e, fs, 0)
        | DayNumResult.ok n =>
            match retrieve_aoc net config n ("/input") with
            | Except.error e => some (Except.error e, fs, 1)
            | Except.ok input => some (Except.ok (), fsWrite fs input_file input, 1)

/-- Example network oracle for concrete instances: every request fails. -/
def offlineNet : Network :=
  fun _ _ _ => Except.error ("offline")

/-- Example run context for concrete instances. -/
def exampleRun : RunContext :=
  ⟨("day07"), ("/project")⟩

/-- Example filesystem for concrete instances: the input file of
`exampleRun` already exists. -/
def exampleFs : FileSystem :=
  [("/project/day07/input.txt", "16,1,2"),
   ("/project/aoc.toml", "year = \"2021\"\nsession = \"secret\"")]

/-! Theorems. -/

/-- Mutual induction principle for nodes and lists of nodes, obtained by
strong induction on sizes. -/
theorem node_mutual_induction (P : Node → Prop) (Q : List Node → Prop)
    (htext : ∀ s, P (Node.text s)) (hcomment : ∀ s, P (Node.comment s))
    (helem : ∀ t cs, Q cs → P (Node.element t cs))
    (hnil : Q [])
    (hcons : ∀ n ns, P n → Q ns → Q (n :: ns)) :
    (∀ n, P n) ∧ (∀ ns, Q ns) := by
  have key : ∀ k, (∀ n : Node, sizeOf n ≤ k → P n) ∧
      (∀ ns : List Node, sizeOf ns ≤ k → Q ns) := by
    intro k
    induction k with
    | zero =>
      refine ⟨fun n hn => ?_, fun ns hns => ?_⟩
      · cases n <;> simp at hn
      · cases ns with
        | nil => exact hnil
        | cons n ns => simp at hns
    | succ k ih =>
      refine ⟨fun n hn => ?_, fun ns hns => ?_⟩
      · cases n with
        | element t cs =>
          refine helem t cs (ih.2 cs ?_)
          simp at hn
          omega
        | text s => exact htext s
        | comment s => exact hcomment s
      · cases ns with
        | nil => exact hnil
        | cons n ns =>
          simp at hns
          exact hcons n ns (ih.1 n (by omega)) (ih.2 ns (by omega))
  exact ⟨fun n => (key (sizeOf n)).1 n le_rfl, fun ns => (key (sizeOf ns)).2 ns le_rfl⟩

/-- Joining a concatenation of string lists concatenates the joins. -/
theorem string_join_append (l1 l2 : List String) :
    String.join (l1 ++ l2) = String.join l1 ++ String.join l2 := by
  apply String.ext
  simp

/-- The joined descendant text of a node is its flush text
concatenation, and likewise for sibling lists. -/
theorem textNodes_join_eq_specTextConcat :
    (∀ n : Node, String.join (Node.textNodes n) = Node.specTextConcat n) ∧
    (∀ ns : List Node, String.join (textNodesList ns) = specTextConcatList ns) := by
  apply node_mutual_induction
  · intro s
    apply String.ext
    simp [Node.textNodes, Node.specTextConcat]
  · intro s
    apply String.ext
    simp [Node.textNodes, Node.specTextConcat, String.join]
  · intro t cs ih
    simpa [Node.textNodes, Node.specTextConcat] using ih
  · apply String.ext
    simp [textNodesList, specTextConcatList, String.join]
  · intro n ns ihn ihns
    simp [textNodesList, specTextConcatList, string_join_append, ihn, ihns]

set_option maxRecDepth 4000

/-- Matching the fixed selector chain is exactly the qualifying
condition: a code element whose immediate parent is a pre element. -/
theorem preCode_matchesNode_iff (tag : String) (cs : List Node) (anc : List String) :
    preCodeSelector.matchesNode (Node.element tag cs, anc) = true ↔
      (tag = ("code") ∧ anc.head? = some ("pre")) := by
  cases anc with
  | nil =>
    rw [show preCodeSelector.matchesNode (Node.element tag cs, []) =
      (("code") == tag && ancestorChainMatches [("pre")] []) from rfl]
    simp [ancestorChainMatches]
  | cons a rest =>
    rw [show preCodeSelector.matchesNode (Node.element tag cs, a :: rest) =
      (("code") == tag && ancestorChainMatches [("pre")] (a :: rest)) from rfl]
    rw [show ancestorChainMatches [("pre")] (a :: rest) =
      (("pre") == a && ancestorChainMatches [] rest) from rfl]
    simp [ancestorChainMatches]
    constructor
    · rintro ⟨h1, h2⟩
      exact ⟨h1.symm, h2.symm⟩
    · rintro ⟨h1, h2⟩
      exact ⟨h1.symm, h2.symm⟩

/-- Filtering the document-order element traversal by the fixed selector
yields exactly the spec-side qualifying blocks. -/
theorem filter_preCode_eq_qualifying :
    (∀ n : Node, ∀ anc : List String,
      ((Node.elementsWithAnc anc n).filter
          (fun p => preCodeSelector.matchesNode p)).map (fun p => p.1) =
        (match n with
         | Node.element ctag k =>
             if ctag = ("code") ∧ anc.head? = some ("pre") then [Node.element ctag k]
             else []
         | Node.text _ => []
         | Node.comment _ => []) ++ Node.qualifyingBlocks n) ∧
    (∀ ns : List Node, ∀ anc : List String,
      ((elementsWithAncList anc ns).filter
          (fun p => preCodeSelector.matchesNode p)).map (fun p => p.1) =
        qualifyingBlocksList anc.head? ns) := by
  apply node_mutual_induction
  · intro s anc
    simp [Node.elementsWithAnc, Node.qualifyingBlocks]
  · intro s anc
    simp [Node.elementsWithAnc, Node.qualifyingBlocks]
  · intro t cs ih anc
    by_cases hm : t = ("code") ∧ anc.head? = some ("pre")
    · simp [Node.elementsWithAnc, Node.qualifyingBlocks, List.filter_cons,
        preCode_matchesNode_iff, hm, ih]
    · simp [Node.elementsWithAnc, Node.qualifyingBlocks, List.filter_cons,
        preCode_matchesNode_iff, hm, ih]
  · intro anc
    simp [elementsWithAncList, qualifyingBlocksList]
  · intro n ns ihn ihns anc
    simp only [elementsWithAncList, qualifyingBlocksList, List.filter_append,
      List.map_append]
    rw [ihn anc, ihns anc, List.append_assoc]

/-- Selecting with the fixed selector returns exactly the spec-side
qualifying blocks of the document. -/
theorem html_select_preCode (d : Html) :
    d.select preCodeSelector = d.qualifying := by
  unfold Html.select Html.qualifying
  simpa using filter_preCode_eq_qualifying.2 d.roots []

/-- The selector pattern of `parse_tests` parses to the fixed chain. -/
theorem selector_parse_pre_code :
    Selector.parse ("pre>code") = some preCodeSelector := by
  decide

/-- Unfolding of `parse_tests`: it returns, without failing, the joined
descendant text of exactly the qualifying blocks, in document order. -/
theorem parse_tests_eq (html : String) :
    parse_tests html = Except.ok
      ((Html.qualifying (Html.parse_document html)).map
        (fun el => String.join (Node.textNodes el))) := by
  unfold parse_tests
  rw [show (Selector.parse ("pre>code")).get (by decide) = preCodeSelector from by decide]
  simp only [html_select_preCode]

/-- The number of qualifying blocks equals the recursive count, for
subtrees and sibling lists alike. -/
theorem qualifying_length_eq_count :
    (∀ n : Node, (Node.qualifyingBlocks n).length = Node.countQualifying n) ∧
    (∀ ns : List Node, ∀ p : Option String,
      (qualifyingBlocksList p ns).length = countQualifyingList p ns) := by
  apply node_mutual_induction
  · intro s
    simp [Node.qualifyingBlocks, Node.countQualifying]
  · intro s
    simp [Node.qualifyingBlocks, Node.countQualifying]
  · intro t cs ih
    simpa [Node.qualifyingBlocks, Node.countQualifying] using ih (some t)
  · intro p
    simp [qualifyingBlocksList, countQualifyingList]
  · intro n ns ihn ihns p
    cases n with
    | element ctag k =>
      by_cases hm : ctag = ("code") ∧ p = some ("pre")
      · obtain ⟨h1, h2⟩ := hm
        subst h1
        subst h2
        simp [qualifyingBlocksList, countQualifyingList, ihn, ihns (some ("pre"))]
        omega
      · simp [qualifyingBlocksList, countQualifyingList, hm, ihn, ihns p]
    | text s => simp [qualifyingBlocksList, countQualifyingList, ihn, ihns p]
    | comment s => simp [qualifyingBlocksList, countQualifyingList, ihn, ihns p]

/-- The qualifying blocks are a sublist of the document-order list of
all elements: document order is preserved. -/
theorem qualifying_sublist_allElements :
    (∀ n : Node, ∀ p : Option String,
      List.Sublist (qualifyingBlocksList p [n]) (allElementsList [n])) ∧
    (∀ ns : List Node, ∀ p : Option String,
      List.Sublist (qualifyingBlocksList p ns) (allElementsList ns)) := by
  apply node_mutual_induction
  · intro s p
    simp [qualifyingBlocksList, allElementsList, Node.qualifyingBlocks, Node.allElements]
  · intro s p
    simp [qualifyingBlocksList, allElementsList, Node.qualifyingBlocks, Node.allElements]
  · intro t cs ih p
    by_cases hm : t = ("code") ∧ p = some ("pre")
    · simpa [qualifyingBlocksList, allElementsList, Node.qualifyingBlocks,
        Node.allElements, hm] using List.Sublist.cons₂ (Node.element t cs) (ih (some t))
    · simpa [qualifyingBlocksList, allElementsList, Node.qualifyingBlocks,
        Node.allElements, hm] using List.Sublist.cons (Node.element t cs) (ih (some t))
  · intro p
    simp [qualifyingBlocksList, allElementsList]
  · intro n ns ihn ihns p
    have h1 := ihn p
    have h2 := ihns p
    have key : qualifyingBlocksList p (n :: ns) =
        qualifyingBlocksList p [n] ++ qualifyingBlocksList p ns := by
      simp [qualifyingBlocksList, List.append_assoc]
    have key2 : allElementsList (n :: ns) =
        allElementsList [n] ++ allElementsList ns := by
      simp [allElementsList]
    rw [key, key2]
    exact List.Sublist.append h1 h2

/-- C1: for every HTML input string, `parse_tests` returns one string per
element of tag type "code" whose immediate parent element is of tag type
"pre" (the qualifying blocks), and a code element whose parent is not a
pre element never contributes a string to the result: the output is
exactly the text of the qualifying blocks and of nothing else. -/
theorem C1_parse_tests_exactly_qualifying (html : String) :
    parse_tests html = Except.ok
      ((Html.qualifying (Html.parse_document html)).map
        (fun el => String.join (Node.textNodes el))) :=
  parse_tests_eq html

/-- C2: for any HTML document with N qualifying nested code blocks,
`parse_tests` returns exactly N strings (not deduplicated: every block is
counted), and the matched blocks are a sublist of the document-order
element list, so the output follows the top-to-bottom order of
appearance in the document. -/
theorem C2_parse_tests_count_and_order (html : String) :
    ∃ l, parse_tests html = Except.ok l ∧
      l.length = Html.countQualifying (Html.parse_document html) ∧
      l = (Html.qualifying (Html.parse_document html)).map
            (fun el => String.join (Node.textNodes el)) ∧
      List.Sublist (Html.qualifying (Html.parse_document html))
        (Html.allElements (Html.parse_document html)) := by
  refine ⟨_, parse_tests_eq html, ?_, rfl, ?_⟩
  · rw [List.length_map]
    exact qualifying_length_eq_count.2 (Html.parse_document html).roots none
  · exact qualifying_sublist_allElements.2 (Html.parse_document html).roots none

/-- C3: for every qualifying code block, the extracted string equals the
flush concatenation of all of its descendant text nodes in document
order, with no separator inserted between the fragments. -/
theorem C3_parse_tests_text_fidelity (html : String) :
    parse_tests html = Except.ok
      ((Html.qualifying (Html.parse_document html)).map Node.specTextConcat) := by
  have h : (fun el => String.join (Node.textNodes el)) = Node.specTextConcat :=
    funext textNodes_join_eq_specTextConcat.1
  rw [parse_tests_eq html, h]

/-- C4: for every input string `parse_tests` never returns an error, and
an input with zero qualifying code blocks yields `Except.ok []` rather
than an error. -/
theorem C4_parse_tests_never_errors (html : String) :
    (∀ e, parse_tests html ≠ Except.error e) ∧
    (Html.qualifying (Html.parse_document html) = [] →
      parse_tests html = Except.ok []) := by
  constructor
  · intro e h
    rw [parse_tests_eq html] at h
    exact Except.noConfusion h
  · intro hq
    rw [parse_tests_eq html, hq]
    rfl

/-- Witness for C4 at the empty input, which parses to a document with no
qualifying blocks. -/
theorem C4_parse_tests_never_errors_witness :
    parse_tests ("") = Except.ok [] :=
  (C4_parse_tests_never_errors ("")).2 (by rfl)

/-- C5: extraction is deterministic and pure: two runs of `parse_tests`
on the same input string return the same result, with no other state
consulted (the embedding of `parse_tests` is a function of the input
string alone). -/
theorem C5_parse_tests_deterministic (h1 h2 : String) (heq : h1 = h2) :
    parse_tests h1 = parse_tests h2 := by
  rw [heq]

/-- Witness for C5: two runs on a concrete equal input. -/
theorem C5_parse_tests_deterministic_witness :
    parse_tests ("<pre><code>x</code></pre>") =
      parse_tests ("<pre><code>x</code></pre>") :=
  C5_parse_tests_deterministic _ _ rfl

/-- C6: the fixed internal selector pattern of `parse_tests` is valid:
parsing it succeeds with the expected chain, so the `unwrap` on the
parsed selector never panics, independently of the HTML input. -/
theorem C6_selector_pattern_valid :
    Selector.parse ("pre>code") = some preCodeSelector ∧
    (Selector.parse ("pre>code")).isSome = true := by
  exact ⟨selector_parse_pre_code, by decide⟩

set_option maxRecDepth 32000

/-- C7: on the concrete regression page of the program's own test (one
pre-nested code block plus unrelated inline code elements outside any
pre), `parse_tests` returns exactly the one expected string. -/
theorem C7_regression_case :
    parse_tests test_html = Except.ok [("16,1,2,0,4,2,7,1,2,14")] := by
  rfl

/-- The accumulated decimal value unfolds over a cons. -/
theorem digitsValueFrom_cons (acc b : Nat) (r : List Nat) :
    digitsValueFrom acc (b :: r) = digitsValueFrom (acc * 10 + (b - 0x30)) r :=
  rfl

/-- The accumulated decimal value never drops below its initial value. -/
theorem le_digitsValueFrom (s : List Nat) : ∀ acc, acc ≤ digitsValueFrom acc s := by
  induction s with
  | nil =>
    intro acc
    exact Nat.le_refl acc
  | cons b r ih =>
    intro acc
    have h1 : acc ≤ acc * 10 + (b - 0x30) := by omega
    exact Nat.le_trans h1 (ih (acc * 10 + (b - 0x30)))

/-- Digit bytes are exactly the ASCII codes 0x30 to 0x39. -/
theorem isDigitByte_iff (b : Nat) :
    isDigitByte b = true ↔ (0x30 ≤ b ∧ b ≤ 0x39) := by
  simp [isDigitByte]

/-- Characterisation of the unsigned digit loop: it succeeds exactly on
all-digit strings whose accumulated value stays within `USIZE_MAX`, and
then returns that value. -/
theorem parseDigits_some_iff (s : List Nat) : ∀ acc v, acc ≤ USIZE_MAX →
    (parseDigits s acc = some v ↔
      (s.all isDigitByte = true ∧ digitsValueFrom acc s ≤ USIZE_MAX ∧
        v = digitsValueFrom acc s)) := by
  induction s with
  | nil =>
    intro acc v hacc
    simp [parseDigits, digitsValueFrom, hacc]
    constructor
    · intro h
      exact h.symm
    · intro h
      exact h.symm
  | cons b r ih =>
    intro acc v hacc
    by_cases hd : isDigitByte b = true
    · by_cases h2 : acc * 10 + (b - 0x30) ≤ USIZE_MAX
      · rw [show parseDigits (b :: r) acc = parseDigits r (acc * 10 + (b - 0x30)) from by
          simp [parseDigits, hd, h2]]
        rw [ih _ v h2]
        simp [hd, digitsValueFrom_cons]
      · rw [show parseDigits (b :: r) acc = none from by
          simp [parseDigits, hd, h2]]
        simp only [List.all_cons, hd, Bool.true_and, digitsValueFrom_cons]
        constructor
        · intro h
          exact Option.noConfusion h
        · rintro ⟨hall, hle, hv⟩
          exact absurd (Nat.le_trans (le_digitsValueFrom r _) hle) h2
    · rw [show parseDigits (b :: r) acc = none from by simp [parseDigits, hd]]
      simp [hd]

/-- On a nonempty all-digit string whose value fits, `parseUsize`
returns the decimal value. -/
theorem parseUsize_digits_value (s : List Nat) (hnum : isDecimalNumeral s = true)
    (hle : digitsValue s ≤ USIZE_MAX) :
    parseUsize s = some (digitsValue s) := by
  match s with
  | [] => simp [isDecimalNumeral] at hnum
  | b :: r =>
    simp only [isDecimalNumeral, List.all_cons, Bool.and_eq_true, decide_eq_true_eq] at hnum
    have hd : isDigitByte b = true := hnum.2.1
    have hb1 : b ≠ 0x2B := by
      rw [isDigitByte_iff] at hd
      omega
    rw [show parseUsize (b :: r) = parseDigits (b :: r) 0 from by
      simp [parseUsize, hb1]]
    rw [parseDigits_some_iff _ 0 _ (Nat.zero_le _)]
    exact ⟨by simp [hd, hnum.2.2], hle, rfl⟩

/-- Characterisation of `parseUsize`: it succeeds exactly on the strings
in `rustUsizeAccepts`. -/
theorem parseUsize_some_iff (s : List Nat) :
    (∃ v, parseUsize s = some v) ↔ rustUsizeAccepts s := by
  cases s with
  | nil =>
    simp [parseUsize, rustUsizeAccepts, isDecimalNumeral]
  | cons b r =>
    by_cases hp : b = 0x2B
    · subst hp
      cases r with
      | nil =>
        simp [parseUsize, rustUsizeAccepts, isDecimalNumeral, isDigitByte]
      | cons c r2 =>
        rw [show parseUsize (0x2B :: c :: r2) = parseDigits (c :: r2) 0 from rfl]
        constructor
        · rintro ⟨v, hv⟩
          rw [parseDigits_some_iff _ 0 v (Nat.zero_le _)] at hv
          refine Or.inr ⟨c :: r2, rfl, ?_, hv.2.1⟩
          simp [isDecimalNumeral, hv.1]
        · rintro (⟨hnum, hle⟩ | ⟨r3, heq, hnum, hle⟩)
          · exfalso
            simp only [isDecimalNumeral, List.all_cons, Bool.and_eq_true,
              decide_eq_true_eq] at hnum
            have := (isDigitByte_iff 0x2B).mp hnum.2.1
            omega
          · injection heq with h1 h2
            subst h2
            refine ⟨digitsValue (c :: r2), ?_⟩
            rw [parseDigits_some_iff _ 0 _ (Nat.zero_le _)]
            refine ⟨?_, hle, rfl⟩
            simpa [isDecimalNumeral] using hnum
    · rw [show parseUsize (b :: r) = parseDigits (b :: r) 0 from by
        simp [parseUsize, hp]]
      constructor
      · rintro ⟨v, hv⟩
        rw [parseDigits_some_iff _ 0 v (Nat.zero_le _)] at hv
        refine Or.inl ⟨?_, hv.2.1⟩
        simp [isDecimalNumeral, hv.1]
      · rintro (⟨hnum, hle⟩ | ⟨r3, heq, hnum, hle⟩)
        · refine ⟨digitsValue (b :: r), ?_⟩
          rw [parseDigits_some_iff _ 0 _ (Nat.zero_le _)]
          refine ⟨?_, hle, rfl⟩
          simpa [isDecimalNumeral] using hnum
        · exfalso
          injection heq with h1 h2
          exact hp h1

/-- A character boundary at byte index 3 implies the string has at least
three bytes. -/
theorem three_le_of_isCharBoundary (s : List Nat) (h : isCharBoundary s 3 = true) :
    3 ≤ s.length := by
  unfold isCharBoundary at h
  rw [if_neg (by omega)] at h
  by_cases h3 : 3 < s.length
  · omega
  · rw [dif_neg h3] at h
    simp at h
    omega

/-- C8 (amended): assuming the byte slice at index 3 succeeds,
`day_number` returns an error if and only if the remainder of the day
name is not accepted by Rust usize parsing — not a decimal numeral,
possibly after one stripped leading '+', whose value is representable
in usize; a leading '-' always errors since usize is unsigned — and on
a plain decimal remainder whose value fits it returns exactly that
value. -/
theorem C8_day_number_err_characterization (s : List Nat)
    (hb : isCharBoundary s 3 = true) :
    ((∃ e, day_number s = DayNumResult.err e) ↔ ¬ rustUsizeAccepts (s.drop 3)) ∧
    (∀ v, isDecimalNumeral (s.drop 3) = true → digitsValue (s.drop 3) ≤ USIZE_MAX →
      digitsValue (s.drop 3) = v → day_number s = DayNumResult.ok v) := by
  constructor
  · constructor
    · rintro ⟨e, he⟩ hacc
      rw [← parseUsize_some_iff] at hacc
      obtain ⟨v, hv⟩ := hacc
      rw [day_number, if_pos hb, hv] at he
      exact DayNumResult.noConfusion he
    · intro hacc
      cases hp : parseUsize (s.drop 3) with
      | some v => exact absurd ((parseUsize_some_iff _).mp ⟨v, hp⟩) hacc
      | none =>
        refine ⟨("Unable to parse day number"), ?_⟩
        rw [day_number, if_pos hb, hp]
  · intro v hnum hle hval
    have hsome : parseUsize (s.drop 3) = some v := by
      rw [← hval]
      exact parseUsize_digits_value _ hnum hle
    rw [day_number, if_pos hb, hsome]

/-- Witness for C8 at the concrete day name "day07" (as UTF-8 bytes). -/
theorem C8_day_number_err_characterization_witness :
    day_number [0x64, 0x61, 0x79, 0x30, 0x37] = DayNumResult.ok 7 :=
  (C8_day_number_err_characterization [0x64, 0x61, 0x79, 0x30, 0x37] (by decide)).2
    7 (by decide) (by decide) (by decide)

/-- Counterexample to C8 as frozen: on the day name
"day18446744073709551616" the remainder after the prefix is a valid
non-negative decimal numeral, yet `day_number` returns a parse error,
because the value 2 ^ 64 exceeds `usize::MAX`; so "error iff the
remainder is not a valid non-negative integer" fails at this input. -/
theorem C8_day_number_overflow_cex :
    ¬ ((∃ e, day_number overflowDayName = DayNumResult.err e) ↔
        ¬ isDecimalNumeral (overflowDayName.drop 3) = true) := by
  intro h
  have h1 : ∃ e, day_number overflowDayName = DayNumResult.err e :=
    ⟨("Unable to parse day number"), by rfl⟩
  exact absurd (by decide : isDecimalNumeral (overflowDayName.drop 3) = true)
    (h.mp h1)

/-- C10: `day_number` panics (rather than returning an error value)
exactly when the day name has fewer than three bytes or byte index 3 is
not a UTF-8 character boundary in it, and the error return for
malformed names is only produced when the slice itself succeeds. -/
theorem C10_day_number_panic_iff (s : List Nat) :
    (day_number s = DayNumResult.panicked ↔
      (s.length < 3 ∨ isCharBoundary s 3 = false)) ∧
    (∀ e, day_number s = DayNumResult.err e →
      3 ≤ s.length ∧ isCharBoundary s 3 = true) := by
  cases hb : isCharBoundary s 3 with
  | true =>
    have h3 := three_le_of_isCharBoundary s hb
    constructor
    · rw [day_number, if_pos hb]
      cases hp : parseUsize (s.drop 3) with
      | some v =>
        simp [hb]
        omega
      | none =>
        simp [hb]
        omega
    · intro e he
      exact ⟨h3, rfl⟩
  | false =>
    constructor
    · rw [day_number, if_neg (by simp [hb])]
      simp [hb]
    · intro e he
      rw [day_number, if_neg (by simp [hb])] at he
      exact DayNumResult.noConfusion he

/-- Witness for C10 at the two-byte day name "da". -/
theorem C10_day_number_panic_witness :
    day_number [0x64, 0x61] = DayNumResult.panicked :=
  (C10_day_number_panic_iff [0x64, 0x61]).1.mpr (Or.inl (by decide))

/-- C9: when `input.txt` already exists in the day folder, `get_inputs`
performs no network request, leaves the filesystem (and so the file's
bytes) unchanged, and returns success rather than an error. -/
theorem C9_get_inputs_skip_when_exists (run : RunContext) (net : Network)
    (fs : FileSystem)
    (h : fsExists fs (run.day_folder ++ ("/input.txt")) = true) :
    get_inputs run net fs = some (Except.ok (), fs, 0) := by
  unfold get_inputs
  simp [h]

/-- Witness for C9 at a concrete run context, filesystem and an
always-failing network oracle. -/
theorem C9_get_inputs_skip_witness :
    get_inputs exampleRun offlineNet exampleFs =
      some (Except.ok (), exampleFs, 0) :=
  C9_get_inputs_skip_when_exists exampleRun offlineNet exampleFs (by decide)

end Aocprep
